import Mathlib

/-!
Verification of the observer / singleton design-pattern repository.

The embedding models `src/behavioral/observer.py` (classes `Subject`,
`Observer`, `ConcreteObserver`) and `src/creational/Singleton.py`
(class `Singleton`).

Python objects are identified by natural-number ids.  The mutable heap of
all `Subject` and `Observer` objects is a `World`: each hub id carries the
`_subject_state` field and the `_observers` set of the `Subject` with that
id, and each observer id carries the `_observer_state` and `_subject`
fields of the `Observer` with that id.  Python's `set` is a `Finset`.
-/

namespace ObserverModel

/-- The heap of all `Subject` and `Observer` objects.
`hubState h` is hub `h`'s `_subject_state` (initially `None`),
`hubObs h` is hub `h`'s `_observers` set,
`obsState o` is observer `o`'s `_observer_state` (initially `None`),
`obsSubject o` is observer `o`'s `_subject` back-reference. -/
structure World (α : Type) where
  hubState : Nat → Option α
  hubObs : Nat → Finset Nat
  obsState : Nat → Option α
  obsSubject : Nat → Option Nat

/-- A freshly constructed heap: every hub is `Subject.__init__`
(`_subject_state = None`, `_observers = set()`) and every observer is
`Observer.__init__` (`_observer_state = None`, `_subject = None`). -/
def World.fresh (α : Type) : World α :=
  ⟨fun _ => none, fun _ => ∅, fun _ => none, fun _ => none⟩

variable {α : Type}

/-- Method `Subject._notify(arg)`: `for observer in self._observers:
observer.update(arg)`.  `ConcreteObserver.update(arg)` stores `arg` into
`self._observer_state` and touches nothing else, so the loop (whose
iteration order over the set is unspecified) sets the `_observer_state`
of exactly the members of the registry to `arg`. -/
def notify (h : Nat) (arg : α) (w : World α) : World α :=
  { w with obsState := fun o => if o ∈ w.hubObs h then some arg else w.obsState o }

/-- The collection of observers whose `update` method one `_notify` call
on hub `h` invokes (with multiplicity): the loop `for observer in
self._observers` visits each member of the set exactly once, in
unspecified order, so the trace is the underlying multiset of the
registry. -/
def notifyTrace (h : Nat) (w : World α) : Multiset Nat :=
  (w.hubObs h).val

/-- Method `Subject.register(observer)`: `self._observers.add(observer);
observer._subject = self`. -/
def register (h o : Nat) (w : World α) : World α :=
  { w with
    hubObs := Function.update w.hubObs h (insert o (w.hubObs h)),
    obsSubject := Function.update w.obsSubject o (some h) }

/-- Method `Subject.de_register(observer)`: `self._observers.discard(observer);
observer._subject = None`. -/
def de_register (h o : Nat) (w : World α) : World α :=
  { w with
    hubObs := Function.update w.hubObs h ((w.hubObs h).erase o),
    obsSubject := Function.update w.obsSubject o none }

/-- The `subject_state` property getter: returns `self._subject_state`. -/
def subject_state (h : Nat) (w : World α) : Option α :=
  w.hubState h

/-- The `subject_state` property setter: `self._subject_state = arg;
self._notify(arg)`. -/
def setState (h : Nat) (arg : α) (w : World α) : World α :=
  notify h arg { w with hubState := Function.update w.hubState h (some arg) }

/-- Method `ConcreteObserver.push(arg)`: `self._subject.subject_state = arg`.
When `self._subject` is `None` the attribute assignment raises
`AttributeError` (modelled as `none`) and no object is modified. -/
def push (o : Nat) (arg : α) (w : World α) : Option (World α) :=
  match w.obsSubject o with
  | none => none
  | some h => some (setState h arg w)

/-- One client call on the public API surface of `observer.py`:
`Subject.register`, `Subject.de_register`, the `subject_state` setter,
or `ConcreteObserver.push`. -/
inductive Op (α : Type) where
  | register (h o : Nat)
  | de_register (h o : Nat)
  | setState (h : Nat) (v : α)
  | push (o : Nat) (v : α)

/-- Effect of one call on the heap.  A `push` on an unregistered observer
raises `AttributeError`, which leaves every object unmodified. -/
def applyOp (w : World α) : Op α → World α
  | .register h o => register h o w
  | .de_register h o => de_register h o w
  | .setState h v => setState h v w
  | .push o v => (push o v w).getD w

/-- Run a sequence of client calls from a heap. -/
def run (ops : List (Op α)) (w : World α) : World α :=
  ops.foldl applyOp w

/-- The call addresses no hub other than `h0` (a `push` call addresses a
hub only through its back-reference). -/
def UsesOnlyHub (h0 : Nat) : Op α → Prop
  | .register h _ => h = h0
  | .de_register h _ => h = h0
  | .setState h _ => h = h0
  | .push _ _ => True

/-- The single-hub heap invariant: every registered dependent of every
hub points back at it, hub `h0` is the only hub with a non-empty
registry, and every back-reference is `None` or `h0`. -/
def SingleHubInv (h0 : Nat) (w : World α) : Prop :=
  (∀ h d, d ∈ w.hubObs h → w.obsSubject d = some h)
  ∧ (∀ h, h ≠ h0 → w.hubObs h = ∅)
  ∧ (∀ d, w.obsSubject d = none ∨ w.obsSubject d = some h0)

end ObserverModel

namespace SingletonModel

/-!
Embedding of `src/creational/Singleton.py`.  Instances are identified by
the number of constructions that preceded them, so the instance built by
the `k`-th execution of `Singleton()` inside `get_cls_instance` has
identity `k`.  The class attributes are a state record; `constructions`
counts how many times the constructor has run.
-/

/-- The class-level state of `Singleton`: `__app_instance` (initially
`None`) plus an instrumentation counter of constructor runs. -/
structure SingState where
  app_instance : Option Nat
  constructions : Nat
deriving DecidableEq

/-- The class state at module load: `__app_instance = None`, no
construction has happened. -/
def initSing : SingState := ⟨none, 0⟩

/-- Method `Singleton.get_cls_instance()` run without interleaving (the lock is
uncontended): `if not cls.__app_instance:` re-checks under the lock and
constructs only if the attribute is still `None` (a `Singleton` object is
always truthy, so the truthiness test is a `None` test); finally the
method returns `cls.__app_instance`. -/
def get_cls_instance (s : SingState) : Nat × SingState :=
  match s.app_instance with
  | some i => (i, s)
  | none => (s.constructions, ⟨some s.constructions, s.constructions + 1⟩)

/-- Run `n` sequential calls of `get_cls_instance`, collecting the
returned instance identities in call order. -/
def runGets : Nat → SingState → List Nat × SingState
  | 0, s => ([], s)
  | n + 1, s =>
      let (r, s') := get_cls_instance s
      let (rs, s'') := runGets n s'
      (r :: rs, s'')

/-!
Interleaving semantics of `get_cls_instance` for concurrent callers.
Each thread is a program counter walking through the method body; the
shared state is the class attributes `__singleton_lock` and
`__app_instance`.  The only shared-memory accesses are the unsynchronized
fast-path read, the lock acquire/release, the locked re-check, the
locked construct-and-assign, and the final read returned to the caller;
each is one atomic step (a single attribute read or write).
-/

/-- Program counter of one thread inside `get_cls_instance`. -/
inductive TPC where
  /-- about to evaluate the outer `if not cls.__app_instance` (no lock) -/
  | checkFast
  /-- about to run `cls.__singleton_lock.acquire()` -/
  | atAcquire
  /-- holding the lock, about to evaluate the inner `if not cls.__app_instance` -/
  | atRecheck
  /-- holding the lock, about to run `cls.__app_instance = Singleton()` -/
  | atConstruct
  /-- holding the lock, about to run `cls.__singleton_lock.release()` -/
  | atRelease
  /-- about to evaluate `return cls.__app_instance` -/
  | atReturn
  /-- returned instance identity `r` to the caller -/
  | done (r : Nat)
deriving DecidableEq

/-- Shared class state plus the program counters of `n` threads all
calling `get_cls_instance`. -/
structure CState (n : Nat) where
  app_instance : Option Nat
  constructions : Nat
  lockHolder : Option (Fin n)
  pc : Fin n → TPC

/-- All `n` threads poised to enter `get_cls_instance`; class state as at
module load. -/
def cInit (n : Nat) : CState n :=
  ⟨none, 0, none, fun _ => .checkFast⟩

/-- One atomic step of one thread.  The fast-path read carries no lock
precondition; `acquire` blocks until the lock is free and records the
holder; the re-check, construction and release happen while the thread
holds the lock (established by `acquire`, given up only by `release`). -/
inductive CStep {n : Nat} : CState n → CState n → Prop where
  | fastHit (s : CState n) (t : Fin n) (i : Nat) :
      s.pc t = .checkFast → s.app_instance = some i →
      CStep s { s with pc := Function.update s.pc t .atReturn }
  | fastMiss (s : CState n) (t : Fin n) :
      s.pc t = .checkFast → s.app_instance = none →
      CStep s { s with pc := Function.update s.pc t .atAcquire }
  | acquire (s : CState n) (t : Fin n) :
      s.pc t = .atAcquire → s.lockHolder = none →
      CStep s { s with lockHolder := some t,
                       pc := Function.update s.pc t .atRecheck }
  | recheckHit (s : CState n) (t : Fin n) (i : Nat) :
      s.pc t = .atRecheck → s.app_instance = some i →
      CStep s { s with pc := Function.update s.pc t .atRelease }
  | recheckMiss (s : CState n) (t : Fin n) :
      s.pc t = .atRecheck → s.app_instance = none →
      CStep s { s with pc := Function.update s.pc t .atConstruct }
  | construct (s : CState n) (t : Fin n) :
      s.pc t = .atConstruct →
      CStep s { s with app_instance := some s.constructions,
                       constructions := s.constructions + 1,
                       pc := Function.update s.pc t .atRelease }
  | release (s : CState n) (t : Fin n) :
      s.pc t = .atRelease →
      CStep s { s with lockHolder := none,
                       pc := Function.update s.pc t .atReturn }
  | ret (s : CState n) (t : Fin n) (i : Nat) :
      s.pc t = .atReturn → s.app_instance = some i →
      CStep s { s with pc := Function.update s.pc t (.done i) }

/-- States reachable by interleaving the `n` callers. -/
def CReach (n : Nat) (s : CState n) : Prop :=
  Relation.ReflTransGen CStep (cInit n) s

/-- A program counter inside the lock-protected critical section. -/
def inCritical : TPC → Prop
  | .atRecheck => True
  | .atConstruct => True
  | .atRelease => True
  | _ => False

/-- Inductive invariant of the interleaved system: the class state is
either untouched or holds the one instance ever built (identity 0); any
thread in the critical section is the recorded lock holder; a thread
about to construct still sees `__app_instance = None`; a thread past the
re-check or at the final read sees it set; a finished thread returned the
unique instance. -/
def CInv {n : Nat} (s : CState n) : Prop :=
  ((s.app_instance = none ∧ s.constructions = 0)
      ∨ (s.app_instance = some 0 ∧ s.constructions = 1))
  ∧ (∀ t : Fin n, inCritical (s.pc t) → s.lockHolder = some t)
  ∧ (∀ t : Fin n, s.pc t = .atConstruct → s.app_instance = none)
  ∧ (∀ t : Fin n, s.pc t = .atRelease → ∃ i, s.app_instance = some i)
  ∧ (∀ t : Fin n, s.pc t = .atReturn → ∃ i, s.app_instance = some i)
  ∧ (∀ (t : Fin n) (r : Nat), s.pc t = .done r → r = 0 ∧ s.app_instance = some 0)

end SingletonModel

namespace ObserverModel

variable {α : Type}

/-! Basic frame lemmas about the `Subject` methods. -/

lemma setState_hubObs (h : Nat) (v : α) (w : World α) :
    (setState h v w).hubObs = w.hubObs := rfl

lemma setState_obsSubject (h : Nat) (v : α) (w : World α) :
    (setState h v w).obsSubject = w.obsSubject := rfl

lemma setState_hubState_self (h : Nat) (v : α) (w : World α) :
    (setState h v w).hubState h = some v := by
  simp [setState, notify]

lemma setState_hubState_ne (h h' : Nat) (v : α) (w : World α) (hne : h' ≠ h) :
    (setState h v w).hubState h' = w.hubState h' := by
  simp [setState, notify, Function.update_noteq hne]

lemma setState_obsState_mem (h d : Nat) (v : α) (w : World α)
    (hd : d ∈ w.hubObs h) : (setState h v w).obsState d = some v := by
  simp [setState, notify, hd]

lemma setState_obsState_not_mem (h d : Nat) (v : α) (w : World α)
    (hd : d ∉ w.hubObs h) : (setState h v w).obsState d = w.obsState d := by
  simp [setState, notify, hd]

lemma register_hubObs_self (h o : Nat) (w : World α) :
    (register h o w).hubObs h = insert o (w.hubObs h) := by
  simp [register]

lemma register_hubObs_ne (h h' o : Nat) (w : World α) (hne : h' ≠ h) :
    (register h o w).hubObs h' = w.hubObs h' := by
  simp [register, Function.update_noteq hne]

lemma register_obsSubject_self (h o : Nat) (w : World α) :
    (register h o w).obsSubject o = some h := by
  simp [register]

lemma de_register_hubObs_self (h o : Nat) (w : World α) :
    (de_register h o w).hubObs h = (w.hubObs h).erase o := by
  simp [de_register]

lemma de_register_hubObs_ne (h h' o : Nat) (w : World α) (hne : h' ≠ h) :
    (de_register h o w).hubObs h' = w.hubObs h' := by
  simp [de_register, Function.update_noteq hne]

lemma de_register_obsSubject_self (h o : Nat) (w : World α) :
    (de_register h o w).obsSubject o = none := by
  simp [de_register]

/-- Running a block of `setState` calls on hub `h` never touches any
registry. -/
lemma run_setStates_hubObs (h : Nat) (vs : List α) (w : World α) :
    (run (vs.map (Op.setState h)) w).hubObs = w.hubObs := by
  induction vs generalizing w with
  | nil => rfl
  | cons v vs ih => simpa [run, applyOp] using ih (setState h v w)

/-- A dependent registered on hub `h` ends a block of `setState h` calls
caching the last value of the block. -/
lemma run_setStates_obsState_mem (h d : Nat) (vs : List α) (w : World α)
    (hne : vs ≠ []) (hd : d ∈ w.hubObs h) :
    (run (vs.map (Op.setState h)) w).obsState d = some (vs.getLast hne) := by
  induction vs generalizing w with
  | nil => exact absurd rfl hne
  | cons v vs ih =>
      cases vs with
      | nil =>
          simp [run, applyOp, setState_obsState_mem h d v w hd]
      | cons v' vs' =>
          have hd' : d ∈ (setState h v w).hubObs h := by
            rw [setState_hubObs]; exact hd
          have step : run ((v :: v' :: vs').map (Op.setState h)) w
              = run ((v' :: vs').map (Op.setState h)) (setState h v w) := rfl
          have hlast : (v :: v' :: vs').getLast hne
              = (v' :: vs').getLast (by simp) := List.getLast_cons (by simp)
          rw [step, ih (setState h v w) (by simp) hd', hlast]

/-- A dependent absent from hub `h`'s registry is untouched by a block of
`setState h` calls. -/
lemma run_setStates_obsState_not_mem (h d : Nat) (vs : List α) (w : World α)
    (hd : d ∉ w.hubObs h) :
    (run (vs.map (Op.setState h)) w).obsState d = w.obsState d := by
  induction vs generalizing w with
  | nil => rfl
  | cons v vs ih =>
      have hd' : d ∉ (setState h v w).hubObs h := by
        rw [setState_hubObs]; exact hd
      have step : run ((v :: vs).map (Op.setState h)) w
          = run (vs.map (Op.setState h)) (setState h v w) := rfl
      rw [step, ih (setState h v w) hd', setState_obsState_not_mem h d v w hd]


end ObserverModel

open ObserverModel SingletonModel

/-- C1: for every finite sequence of `setState` calls `v1, ..., vn` on hub
`h` and every dependent `d` registered with `h` throughout (registration
is untouched by `setState`), each individual `setState` call synchronously
invokes `d`'s `update` with that call's value (so `d`'s `_observer_state`
equals that value right after the call), and after the whole sequence
`d`'s `_observer_state` equals `vn`. -/
theorem C1_broadcast_delivers_final {α : Type} (h d : Nat) (w : World α)
    (vs : List α) (hne : vs ≠ []) (hreg : d ∈ w.hubObs h) :
    (∀ (u : World α) (v : α), d ∈ u.hubObs h →
        d ∈ notifyTrace h u
        ∧ (setState h v u).obsState d = some v
        ∧ (setState h v u).hubObs = u.hubObs)
    ∧ (run (vs.map (Op.setState h)) w).obsState d = some (vs.getLast hne) := by
  refine ⟨fun u v hd => ⟨hd, setState_obsState_mem h d v u hd, rfl⟩, ?_⟩
  exact run_setStates_obsState_mem h d vs w hne hreg

/-- Witness for C1 at hub 0, dependent 0, sequence `["a", "b"]`. -/
theorem C1_broadcast_delivers_final_witness :
    (run (["a", "b"].map (Op.setState 0))
        (register 0 0 (World.fresh String))).obsState 0 = some "b" := by
  have hreg : (0 : Nat) ∈ (register 0 0 (World.fresh String)).hubObs 0 := by
    rw [register_hubObs_self]; exact Finset.mem_insert_self 0 _
  exact (C1_broadcast_delivers_final 0 0 _ ["a", "b"] (by simp) hreg).2

/-- C2: if dependent `a` has hub `h` as its back-reference (it is
registered with `h`), then `a.push(x)` succeeds, the resulting heap has
`h`'s `subject_state` equal to `x`, and every other dependent currently in
`h`'s registry has `_observer_state` equal to `x`. -/
theorem C2_push_roundtrip {α : Type} (h a : Nat) (x : α) (w : World α)
    (hsub : w.obsSubject a = some h) (_hreg : a ∈ w.hubObs h) :
    ∃ w', push a x w = some w'
      ∧ subject_state h w' = some x
      ∧ ∀ b ∈ w.hubObs h, b ≠ a → w'.obsState b = some x := by
  refine ⟨setState h x w, ?_, ?_, ?_⟩
  · simp [push, hsub]
  · exact setState_hubState_self h x w
  · intro b hb _
    exact setState_obsState_mem h b x w hb

/-- Witness for C2: two dependents 0 and 1 on hub 0; dependent 0 pushes 7. -/
theorem C2_push_roundtrip_witness :
    ∃ w', push 0 7 (register 0 1 (register 0 0 (World.fresh Nat))) = some w'
      ∧ subject_state 0 w' = some 7
      ∧ ∀ b ∈ (register 0 1 (register 0 0 (World.fresh Nat))).hubObs 0,
          b ≠ 0 → w'.obsState b = some 7 := by
  refine C2_push_roundtrip 0 0 7 _ ?_ ?_
  · decide
  · decide

/-- C3: registering dependent `d` twice with hub `h` leaves the registry
equal to a single insertion of `d`; a subsequent `setState` call's
`_notify` loop visits `d` exactly once (the trace read by `_notify` is the
registry of the heap at the time of the call, unchanged by the state
assignment); and `register` sets `d`'s back-reference to `h`. -/
theorem C3_register_idempotent {α : Type} (h d : Nat) (w : World α) :
    (register h d (register h d w)).hubObs h = insert d (w.hubObs h)
    ∧ (register h d (register h d w)).obsSubject d = some h
    ∧ (∀ v : α, notifyTrace h (setState h v (register h d (register h d w)))
        = notifyTrace h (register h d (register h d w)))
    ∧ Multiset.count d (notifyTrace h (register h d (register h d w))) = 1 := by
  refine ⟨?_, register_obsSubject_self h d _, fun v => rfl, ?_⟩
  · rw [register_hubObs_self, register_hubObs_self, Finset.insert_idem]
  · have hmem : d ∈ (register h d (register h d w)).hubObs h := by
      rw [register_hubObs_self]; exact Finset.mem_insert_self d _
    exact Multiset.count_eq_one_of_mem ((register h d (register h d w)).hubObs h).nodup hmem

/-- C4: after `h.de_register(d)` the dependent's back-reference is `None`,
`d` is not in `h`'s registry, the registry is unchanged when `d` was
absent, the `_notify` loop of any later `setState h` call never visits
`d`, and any block of subsequent `setState h` calls leaves `d`'s
`_observer_state` untouched. -/
theorem C4_deregister_isolates {α : Type} (h d : Nat) (w : World α) (vs : List α) :
    (de_register h d w).obsSubject d = none
    ∧ d ∉ (de_register h d w).hubObs h
    ∧ (d ∉ w.hubObs h → (de_register h d w).hubObs = w.hubObs)
    ∧ Multiset.count d (notifyTrace h (de_register h d w)) = 0
    ∧ (run (vs.map (Op.setState h)) (de_register h d w)).obsState d
        = (de_register h d w).obsState d := by
  have habs : d ∉ (de_register h d w).hubObs h := by
    rw [de_register_hubObs_self]; exact Finset.not_mem_erase d _
  refine ⟨de_register_obsSubject_self h d w, habs, ?_, ?_, ?_⟩
  · intro hd
    have : (w.hubObs h).erase d = w.hubObs h := Finset.erase_eq_of_not_mem hd
    simp [de_register, this]
  · simpa [notifyTrace, Multiset.count_eq_zero] using habs
  · exact run_setStates_obsState_not_mem h d vs _ habs

/-- Witness for C4 at hub 0, dependent 1 (absent), heap with dependent 0
registered, then two `setState` calls. -/
theorem C4_deregister_isolates_witness :
    (de_register 0 1 (register 0 0 (World.fresh Nat))).obsSubject 1 = none
    ∧ (1 : Nat) ∉ (de_register 0 1 (register 0 0 (World.fresh Nat))).hubObs 0
    ∧ ((1 : Nat) ∉ (register 0 0 (World.fresh Nat)).hubObs 0 →
        (de_register 0 1 (register 0 0 (World.fresh Nat))).hubObs
          = (register 0 0 (World.fresh Nat)).hubObs)
    ∧ Multiset.count 1 (notifyTrace 0 (de_register 0 1 (register 0 0 (World.fresh Nat)))) = 0
    ∧ (run ([5, 6].map (Op.setState 0))
          (de_register 0 1 (register 0 0 (World.fresh Nat)))).obsState 1
        = (de_register 0 1 (register 0 0 (World.fresh Nat))).obsState 1 :=
  C4_deregister_isolates 0 1 (register 0 0 (World.fresh Nat)) [5, 6]

/-- C6: a `push` by a dependent whose `_subject` back-reference is `None`
raises (`AttributeError` on the `None` attribute assignment, modelled as
`none`), and the failed call leaves the heap — every hub's state and
registry — unmodified. -/
theorem C6_push_unregistered_fails {α : Type} (o : Nat) (v : α) (w : World α)
    (hsub : w.obsSubject o = none) :
    push o v w = none ∧ applyOp w (Op.push o v) = w := by
  constructor
  · simp [push, hsub]
  · simp [applyOp, push, hsub]

/-- Witness for C6: observer 0 on a fresh heap, pushing 3. -/
theorem C6_push_unregistered_fails_witness :
    push 0 3 (World.fresh Nat) = none
    ∧ applyOp (World.fresh Nat) (Op.push 0 3) = World.fresh Nat :=
  C6_push_unregistered_fails 0 3 (World.fresh Nat) rfl

/-- C9: deregistering `d` from a hub `b` that is distinct from the hub `a`
holding `d` (and whose registry does not contain `d`) still clears `d`'s
back-reference to `None`, leaves `a`'s registry unchanged, and a
subsequent `setState` on `a` still invokes `d`'s `update` (storing the
value) even though `d`'s back-reference is `None`. -/
theorem C9_deregister_foreign_hub {α : Type} (a b d : Nat) (w : World α)
    (hab : a ≠ b) (hreg : d ∈ w.hubObs a) (_habs : d ∉ w.hubObs b) :
    (de_register b d w).obsSubject d = none
    ∧ (de_register b d w).hubObs a = w.hubObs a
    ∧ ∀ v : α, (setState a v (de_register b d w)).obsState d = some v := by
  have hA : (de_register b d w).hubObs a = w.hubObs a :=
    de_register_hubObs_ne b a d w hab
  refine ⟨de_register_obsSubject_self b d w, hA, fun v => ?_⟩
  exact setState_obsState_mem a d v _ (by rw [hA]; exact hreg)

/-- Witness for C9: dependent 0 registered on hub 0, deregistered from
hub 1, then hub 0 broadcasts 7. -/
theorem C9_deregister_foreign_hub_witness :
    (de_register 1 0 (register 0 0 (World.fresh Nat))).obsSubject 0 = none
    ∧ (de_register 1 0 (register 0 0 (World.fresh Nat))).hubObs 0
        = (register 0 0 (World.fresh Nat)).hubObs 0
    ∧ (setState 0 7 (de_register 1 0 (register 0 0 (World.fresh Nat)))).obsState 0
        = some 7 := by
  have h := C9_deregister_foreign_hub 0 1 0 (register 0 0 (World.fresh Nat))
    (by decide) (by decide) (by decide)
  exact ⟨h.1, h.2.1, h.2.2 7⟩

/-- C10: registering a dependent `d` (already registered with hub `a`)
with a distinct hub `b` rebinds `d`'s back-reference to `b` but does not
remove `d` from `a`'s registry: `d` is then a member of both registries,
`setState` on either hub stores the value into `d`'s `_observer_state`,
and `d.push(x)` goes through `b` only — it sets `b`'s state to `x` and
leaves `a`'s state as it was. -/
theorem C10_register_second_hub {α : Type} (a b d : Nat) (w : World α)
    (hab : a ≠ b) (hreg : d ∈ w.hubObs a) :
    (register b d w).obsSubject d = some b
    ∧ d ∈ (register b d w).hubObs a
    ∧ d ∈ (register b d w).hubObs b
    ∧ (∀ v : α, (setState a v (register b d w)).obsState d = some v)
    ∧ (∀ v : α, (setState b v (register b d w)).obsState d = some v)
    ∧ ∀ x : α, push d x (register b d w) = some (setState b x (register b d w))
        ∧ (setState b x (register b d w)).hubState b = some x
        ∧ (setState b x (register b d w)).hubState a = w.hubState a := by
  have hA : (register b d w).hubObs a = w.hubObs a :=
    register_hubObs_ne b a d w hab
  have hmemA : d ∈ (register b d w).hubObs a := by rw [hA]; exact hreg
  have hmemB : d ∈ (register b d w).hubObs b := by
    rw [register_hubObs_self]; exact Finset.mem_insert_self d _
  refine ⟨register_obsSubject_self b d w, hmemA, hmemB, ?_, ?_, ?_⟩
  · exact fun v => setState_obsState_mem a d v _ hmemA
  · exact fun v => setState_obsState_mem b d v _ hmemB
  · intro x
    refine ⟨?_, setState_hubState_self b x _, ?_⟩
    · simp [push, register_obsSubject_self b d w]
    · rw [setState_hubState_ne b a x _ hab]
      rfl

/-- Witness for C10: dependent 0 on hub 0, then registered with hub 1. -/
theorem C10_register_second_hub_witness :
    (register 1 0 (register 0 0 (World.fresh Nat))).obsSubject 0 = some 1
    ∧ (0 : Nat) ∈ (register 1 0 (register 0 0 (World.fresh Nat))).hubObs 0
    ∧ (0 : Nat) ∈ (register 1 0 (register 0 0 (World.fresh Nat))).hubObs 1
    ∧ (setState 0 5 (register 1 0 (register 0 0 (World.fresh Nat)))).obsState 0 = some 5
    ∧ (setState 1 6 (register 1 0 (register 0 0 (World.fresh Nat)))).obsState 0 = some 6
    ∧ push 0 9 (register 1 0 (register 0 0 (World.fresh Nat)))
        = some (setState 1 9 (register 1 0 (register 0 0 (World.fresh Nat))))
    ∧ (setState 1 9 (register 1 0 (register 0 0 (World.fresh Nat)))).hubState 0
        = (register 0 0 (World.fresh Nat)).hubState 0 := by
  have h := C10_register_second_hub 0 1 0 (register 0 0 (World.fresh Nat))
    (by decide) (by decide)
  exact ⟨h.1, h.2.1, h.2.2.1, h.2.2.2.1 5, h.2.2.2.2.1 6,
    (h.2.2.2.2.2 9).1, (h.2.2.2.2.2 9).2.2⟩

namespace ObserverModel

variable {α : Type}

/-- A fresh heap satisfies the single-hub invariant. -/
lemma singleHubInv_fresh (h0 : Nat) : SingleHubInv h0 (World.fresh α) := by
  refine ⟨fun h d hd => ?_, fun h _ => rfl, fun d => Or.inl rfl⟩
  simp [World.fresh] at hd

/-- One call addressing only hub `h0` preserves the single-hub invariant. -/
lemma singleHubInv_applyOp (h0 : Nat) (op : Op α) (w : World α)
    (hop : UsesOnlyHub h0 op) (hw : SingleHubInv h0 w) :
    SingleHubInv h0 (applyOp w op) := by
  obtain ⟨hback, hempty, hsubj⟩ := hw
  cases op with
  | register h o =>
      have hh : h0 = h := hop.symm
      subst hh
      refine ⟨fun h d hd => ?_, fun h hne => ?_, fun d => ?_⟩
      · by_cases hhh : h = h0
        · have hhh2 : h0 = h := hhh.symm
          subst hhh2
          rw [show (applyOp w (Op.register h0 o)).hubObs h0
              = insert o (w.hubObs h0) from register_hubObs_self h0 o w] at hd
          by_cases hdo : d = o
          · subst hdo
            exact register_obsSubject_self h0 d w
          · have hd' : d ∈ w.hubObs h0 := by
              rcases Finset.mem_insert.mp hd with h1 | h1
              · exact absurd h1 hdo
              · exact h1
            show Function.update w.obsSubject o (some h0) d = some h0
            rw [Function.update_noteq hdo]
            exact hback h0 d hd'
        · rw [show (applyOp w (Op.register h0 o)).hubObs h
              = w.hubObs h from register_hubObs_ne h0 h o w hhh,
            hempty h hhh] at hd
          simp at hd
      · rw [show (applyOp w (Op.register h0 o)).hubObs h
            = w.hubObs h from register_hubObs_ne h0 h o w hne]
        exact hempty h hne
      · by_cases hdo : d = o
        · subst hdo
          exact Or.inr (register_obsSubject_self h0 d w)
        · show Function.update w.obsSubject o (some h0) d = none
              ∨ Function.update w.obsSubject o (some h0) d = some h0
          rw [Function.update_noteq hdo]
          exact hsubj d
  | de_register h o =>
      have hh : h0 = h := hop.symm
      subst hh
      refine ⟨fun h d hd => ?_, fun h hne => ?_, fun d => ?_⟩
      · by_cases hhh : h = h0
        · have hhh2 : h0 = h := hhh.symm
          subst hhh2
          rw [show (applyOp w (Op.de_register h0 o)).hubObs h0
              = (w.hubObs h0).erase o from de_register_hubObs_self h0 o w] at hd
          have hdo : d ≠ o := Finset.ne_of_mem_erase hd
          have hd' : d ∈ w.hubObs h0 := Finset.mem_of_mem_erase hd
          show Function.update w.obsSubject o none d = some h0
          rw [Function.update_noteq hdo]
          exact hback h0 d hd'
        · rw [show (applyOp w (Op.de_register h0 o)).hubObs h
              = w.hubObs h from de_register_hubObs_ne h0 h o w hhh,
            hempty h hhh] at hd
          simp at hd
      · rw [show (applyOp w (Op.de_register h0 o)).hubObs h
            = w.hubObs h from de_register_hubObs_ne h0 h o w hne]
        exact hempty h hne
      · by_cases hdo : d = o
        · subst hdo
          left
          exact de_register_obsSubject_self h0 d w
        · show Function.update w.obsSubject o none d = none
              ∨ Function.update w.obsSubject o none d = some h0
          rw [Function.update_noteq hdo]
          exact hsubj d
  | setState h v =>
      exact ⟨hback, hempty, hsubj⟩
  | push o v =>
      show SingleHubInv h0 ((push o v w).getD w)
      cases hs : w.obsSubject o with
      | none => simp [push, hs]; exact ⟨hback, hempty, hsubj⟩
      | some h' => simp [push, hs]; exact ⟨hback, hempty, hsubj⟩

/-- A run of calls addressing only hub `h0` preserves the single-hub
invariant. -/
lemma singleHubInv_run (h0 : Nat) (ops : List (Op α)) (w : World α)
    (hops : ∀ op ∈ ops, UsesOnlyHub h0 op) (hw : SingleHubInv h0 w) :
    SingleHubInv h0 (run ops w) := by
  induction ops generalizing w with
  | nil => exact hw
  | cons op ops ih =>
      exact ih (applyOp w op) (fun o ho => hops o (List.mem_cons_of_mem op ho))
        (singleHubInv_applyOp h0 op w (hops op (List.mem_cons_self op ops)) hw)

end ObserverModel

/-- Counterexample to C5: from a fresh heap, registering dependent 0 with
hub 0 and then with hub 1 reaches a state in which dependent 0 is a member
of hub 0's registry while its back-reference is hub 1, not hub 0. -/
theorem C5_backref_invariant_cex :
    (0 : Nat) ∈ (run [Op.register 0 0, Op.register 1 0] (World.fresh Nat)).hubObs 0
    ∧ (run [Op.register 0 0, Op.register 1 0] (World.fresh Nat)).obsSubject 0
        ≠ some 0 := by
  decide

/-- C5 (amended): in every state reachable from a fresh heap by calls that
address a single hub `h0` (register/deregister/setState on `h0` only,
push through back-references, which then only ever point at `h0`), every
member of every hub's registry has its back-reference pointing at that
hub.  With calls addressing two distinct hubs the invariant fails. -/
theorem C5_backref_invariant_single_hub {α : Type} (h0 : Nat)
    (ops : List (Op α)) (hops : ∀ op ∈ ops, UsesOnlyHub h0 op) :
    ∀ h d, d ∈ (run ops (World.fresh α)).hubObs h →
      (run ops (World.fresh α)).obsSubject d = some h :=
  (singleHubInv_run h0 ops (World.fresh α) hops (singleHubInv_fresh h0)).1

/-- Witness for the amended C5: a five-call single-hub history on hub 0
ending with dependent 1 registered and back-pointing at hub 0. -/
theorem C5_backref_invariant_single_hub_witness :
    (1 : Nat) ∈ (run [Op.register 0 0, Op.setState 0 5, Op.de_register 0 0,
        Op.register 0 1, Op.push 1 3] (World.fresh Nat)).hubObs 0
    ∧ (run [Op.register 0 0, Op.setState 0 5, Op.de_register 0 0,
        Op.register 0 1, Op.push 1 3] (World.fresh Nat)).obsSubject 1 = some 0 := by
  refine ⟨by decide, ?_⟩
  refine C5_backref_invariant_single_hub 0 _ ?_ 0 1 (by decide)
  intro op hop
  simp only [List.mem_cons, List.not_mem_nil, or_false] at hop
  rcases hop with rfl | rfl | rfl | rfl | rfl <;> trivial

namespace SingletonModel

/-- Once `__app_instance` is set, `get_cls_instance` is pure: it returns
the stored identity and changes nothing. -/
lemma get_cls_instance_stable (s : SingState) (i : Nat)
    (h : s.app_instance = some i) : get_cls_instance s = (i, s) := by
  simp [get_cls_instance, h]

/-- Iterating `get_cls_instance` from a state with `__app_instance` set
returns the stored identity every time and never changes the state. -/
lemma runGets_stable (n : Nat) (s : SingState) (i : Nat)
    (h : s.app_instance = some i) :
    runGets n s = (List.replicate n i, s) := by
  induction n with
  | zero => rfl
  | succ n ih =>
      simp [runGets, get_cls_instance_stable s i h, ih, List.replicate_succ]

end SingletonModel

/-- C7: sequentially, once `Singleton.__app_instance` is non-`None` it
never changes identity: from any class state already holding instance
`i`, every one of `n` further `get_cls_instance` calls returns `i` and
the class state (including the construction counter) is unchanged; and
from the module-load state, `n + 1` calls all return the instance built
by the first call and the constructor runs exactly once. -/
theorem C7_singleton_sequential :
    (∀ (s : SingState) (i : Nat), s.app_instance = some i →
        ∀ n, runGets n s = (List.replicate n i, s))
    ∧ ∀ n, runGets (n + 1) initSing
        = (List.replicate (n + 1) 0, ⟨some 0, 1⟩) := by
  refine ⟨fun s i h n => runGets_stable n s i h, fun n => ?_⟩
  have h1 : get_cls_instance initSing = (0, ⟨some 0, 1⟩) := rfl
  simp [runGets, h1, runGets_stable n ⟨some 0, 1⟩ 0 rfl, List.replicate_succ]

/-- Witness for C7: three calls from a state holding instance 5, and two
calls from the module-load state. -/
theorem C7_singleton_sequential_witness :
    runGets 3 ⟨some 5, 1⟩ = ([5, 5, 5], ⟨some 5, 1⟩)
    ∧ runGets 2 initSing = ([0, 0], ⟨some 0, 1⟩) :=
  ⟨C7_singleton_sequential.1 ⟨some 5, 1⟩ 5 rfl 3, C7_singleton_sequential.2 1⟩

namespace SingletonModel

/-- On a one-thread domain an update overwrites the whole function. -/
lemma fin1_update (f : Fin 1 → TPC) (v : TPC) :
    Function.update f 0 v = fun _ => v := by
  funext x
  have hx : x = 0 := Subsingleton.elim x 0
  rw [hx, Function.update_same]

/-- The initial state satisfies the invariant. -/
lemma cInv_init (n : Nat) : CInv (cInit n) := by
  refine ⟨Or.inl ⟨rfl, rfl⟩, fun t hc => ?_, fun t h => ?_, fun t h => ?_,
    fun t h => ?_, fun t r h => ?_⟩
  · simp [cInit, inCritical] at hc
  · simp [cInit] at h
  · simp [cInit] at h
  · simp [cInit] at h
  · simp [cInit] at h

/-- Every step of the interleaved system preserves the invariant. -/
lemma cInv_step {n : Nat} (s s' : CState n) (hst : CStep s s') (hinv : CInv s) :
    CInv s' := by
  obtain ⟨hcls, hlock, hcon, hrel, hret, hdone⟩ := hinv
  cases hst with
  | fastHit t i hpc hinst =>
      refine ⟨hcls, fun t' hc => ?_, fun t' h => ?_, fun t' h => ?_,
        fun t' h => ?_, fun t' r h => ?_⟩ <;> dsimp only at *
      · by_cases ht : t' = t
        · subst ht; rw [Function.update_same] at hc; simp [inCritical] at hc
        · rw [Function.update_noteq ht] at hc; exact hlock t' hc
      · by_cases ht : t' = t
        · subst ht; rw [Function.update_same] at h; simp at h
        · rw [Function.update_noteq ht] at h
          exact absurd hinst (by rw [hcon t' h]; simp)
      · by_cases ht : t' = t
        · subst ht; rw [Function.update_same] at h; simp at h
        · rw [Function.update_noteq ht] at h; exact hrel t' h
      · by_cases ht : t' = t
        · exact ⟨i, hinst⟩
        · rw [Function.update_noteq ht] at h; exact hret t' h
      · by_cases ht : t' = t
        · subst ht; rw [Function.update_same] at h; simp at h
        · rw [Function.update_noteq ht] at h; exact hdone t' r h
  | fastMiss t hpc hinst =>
      refine ⟨hcls, fun t' hc => ?_, fun t' h => ?_, fun t' h => ?_,
        fun t' h => ?_, fun t' r h => ?_⟩ <;> dsimp only at *
      · by_cases ht : t' = t
        · subst ht; rw [Function.update_same] at hc; simp [inCritical] at hc
        · rw [Function.update_noteq ht] at hc; exact hlock t' hc
      · by_cases ht : t' = t
        · subst ht; rw [Function.update_same] at h; simp at h
        · rw [Function.update_noteq ht] at h; exact hcon t' h
      · by_cases ht : t' = t
        · subst ht; rw [Function.update_same] at h; simp at h
        · rw [Function.update_noteq ht] at h; exact hrel t' h
      · by_cases ht : t' = t
        · subst ht; rw [Function.update_same] at h; simp at h
        · rw [Function.update_noteq ht] at h; exact hret t' h
      · by_cases ht : t' = t
        · subst ht; rw [Function.update_same] at h; simp at h
        · rw [Function.update_noteq ht] at h; exact hdone t' r h
  | acquire t hpc hfree =>
      refine ⟨hcls, fun t' hc => ?_, fun t' h => ?_, fun t' h => ?_,
        fun t' h => ?_, fun t' r h => ?_⟩ <;> dsimp only at *
      · by_cases ht : t' = t
        · subst ht; rfl
        · rw [Function.update_noteq ht] at hc
          exact absurd (hlock t' hc) (by rw [hfree]; simp)
      · by_cases ht : t' = t
        · subst ht; rw [Function.update_same] at h; simp at h
        · rw [Function.update_noteq ht] at h; exact hcon t' h
      · by_cases ht : t' = t
        · subst ht; rw [Function.update_same] at h; simp at h
        · rw [Function.update_noteq ht] at h; exact hrel t' h
      · by_cases ht : t' = t
        · subst ht; rw [Function.update_same] at h; simp at h
        · rw [Function.update_noteq ht] at h; exact hret t' h
      · by_cases ht : t' = t
        · subst ht; rw [Function.update_same] at h; simp at h
        · rw [Function.update_noteq ht] at h; exact hdone t' r h
  | recheckHit t i hpc hinst =>
      refine ⟨hcls, fun t' hc => ?_, fun t' h => ?_, fun t' h => ?_,
        fun t' h => ?_, fun t' r h => ?_⟩ <;> dsimp only at *
      · by_cases ht : t' = t
        · subst ht; exact hlock t' (by rw [hpc]; trivial)
        · rw [Function.update_noteq ht] at hc; exact hlock t' hc
      · by_cases ht : t' = t
        · subst ht; rw [Function.update_same] at h; simp at h
        · rw [Function.update_noteq ht] at h
          exact absurd hinst (by rw [hcon t' h]; simp)
      · by_cases ht : t' = t
        · exact ⟨i, hinst⟩
        · rw [Function.update_noteq ht] at h; exact hrel t' h
      · by_cases ht : t' = t
        · subst ht; rw [Function.update_same] at h; simp at h
        · rw [Function.update_noteq ht] at h; exact hret t' h
      · by_cases ht : t' = t
        · subst ht; rw [Function.update_same] at h; simp at h
        · rw [Function.update_noteq ht] at h; exact hdone t' r h
  | recheckMiss t hpc hinst =>
      refine ⟨hcls, fun t' hc => ?_, fun t' h => ?_, fun t' h => ?_,
        fun t' h => ?_, fun t' r h => ?_⟩ <;> dsimp only at *
      · by_cases ht : t' = t
        · subst ht; exact hlock t' (by rw [hpc]; trivial)
        · rw [Function.update_noteq ht] at hc; exact hlock t' hc
      · exact hinst
      · by_cases ht : t' = t
        · subst ht; rw [Function.update_same] at h; simp at h
        · rw [Function.update_noteq ht] at h; exact hrel t' h
      · by_cases ht : t' = t
        · subst ht; rw [Function.update_same] at h; simp at h
        · rw [Function.update_noteq ht] at h; exact hret t' h
      · by_cases ht : t' = t
        · subst ht; rw [Function.update_same] at h; simp at h
        · rw [Function.update_noteq ht] at h; exact hdone t' r h
  | construct t hpc =>
      have hnone : s.app_instance = none := hcon t hpc
      have hzero : s.constructions = 0 := by
        rcases hcls with ⟨_, h2⟩ | ⟨h1, _⟩
        · exact h2
        · rw [h1] at hnone; exact absurd hnone (by simp)
      refine ⟨Or.inr ⟨by rw [hzero], by rw [hzero]⟩, fun t' hc => ?_,
        fun t' h => ?_, fun t' h => ?_, fun t' h => ?_, fun t' r h => ?_⟩ <;>
          dsimp only at *
      · by_cases ht : t' = t
        · subst ht; exact hlock t' (by rw [hpc]; trivial)
        · rw [Function.update_noteq ht] at hc; exact hlock t' hc
      · by_cases ht : t' = t
        · subst ht; rw [Function.update_same] at h; simp at h
        · rw [Function.update_noteq ht] at h
          have h1 := hlock t' (by rw [h]; trivial)
          have h2 := hlock t (by rw [hpc]; trivial)
          rw [h1] at h2
          exact absurd (Option.some.inj h2) ht
      · exact ⟨s.constructions, rfl⟩
      · by_cases ht : t' = t
        · subst ht; rw [Function.update_same] at h; simp at h
        · exact ⟨s.constructions, rfl⟩
      · by_cases ht : t' = t
        · subst ht; rw [Function.update_same] at h; simp at h
        · rw [Function.update_noteq ht] at h
          exact absurd (hdone t' r h).2 (by rw [hnone]; simp)
  | release t hpc =>
      have hheld : s.lockHolder = some t := hlock t (by rw [hpc]; trivial)
      refine ⟨hcls, fun t' hc => ?_, fun t' h => ?_, fun t' h => ?_,
        fun t' h => ?_, fun t' r h => ?_⟩ <;> dsimp only at *
      · by_cases ht : t' = t
        · subst ht; rw [Function.update_same] at hc; simp [inCritical] at hc
        · rw [Function.update_noteq ht] at hc
          have h1 := hlock t' hc
          rw [hheld] at h1
          exact absurd (Option.some.inj h1).symm ht
      · by_cases ht : t' = t
        · subst ht; rw [Function.update_same] at h; simp at h
        · rw [Function.update_noteq ht] at h
          have h1 := hlock t' (by rw [h]; trivial)
          rw [hheld] at h1
          exact absurd (Option.some.inj h1).symm ht
      · by_cases ht : t' = t
        · subst ht; rw [Function.update_same] at h; simp at h
        · rw [Function.update_noteq ht] at h; exact hrel t' h
      · by_cases ht : t' = t
        · subst ht; exact hrel t' hpc
        · rw [Function.update_noteq ht] at h; exact hret t' h
      · by_cases ht : t' = t
        · subst ht; rw [Function.update_same] at h; simp at h
        · rw [Function.update_noteq ht] at h; exact hdone t' r h
  | ret t i hpc hinst =>
      have hsome0 : s.app_instance = some 0 := by
        rcases hcls with ⟨h1, _⟩ | ⟨h1, _⟩
        · rw [h1] at hinst; exact absurd hinst (by simp)
        · exact h1
      refine ⟨hcls, fun t' hc => ?_, fun t' h => ?_, fun t' h => ?_,
        fun t' h => ?_, fun t' r h => ?_⟩ <;> dsimp only at *
      · by_cases ht : t' = t
        · subst ht; rw [Function.update_same] at hc; simp [inCritical] at hc
        · rw [Function.update_noteq ht] at hc; exact hlock t' hc
      · by_cases ht : t' = t
        · subst ht; rw [Function.update_same] at h; simp at h
        · rw [Function.update_noteq ht] at h; exact hcon t' h
      · by_cases ht : t' = t
        · subst ht; rw [Function.update_same] at h; simp at h
        · rw [Function.update_noteq ht] at h; exact hrel t' h
      · by_cases ht : t' = t
        · subst ht; rw [Function.update_same] at h; simp at h
        · rw [Function.update_noteq ht] at h; exact hret t' h
      · by_cases ht : t' = t
        · subst ht
          rw [Function.update_same] at h
          have hi : i = r := TPC.done.inj h
          have h2 := hsome0
          rw [hinst] at h2
          exact ⟨hi ▸ Option.some.inj h2, hsome0⟩
        · rw [Function.update_noteq ht] at h; exact hdone t' r h

/-- Every reachable state of the interleaved system satisfies the
invariant. -/
lemma cInv_reach (n : Nat) (s : CState n) (h : CReach n s) : CInv s := by
  induction h with
  | refl => exact cInv_init n
  | tail _ hstep ih => exact cInv_step _ _ hstep ih

end SingletonModel

/-- C8: in the interleaved semantics of `get_cls_instance` (fast-path
read without the lock; re-check, construction and release inside the
lock-held critical section), for `n > 0` concurrent callers, in every
reachable state in which all callers have returned, all returned
references have the same identity and exactly one construction has
occurred. -/
theorem C8_singleton_concurrent_unique (n : Nat) (s : CState n) (hn : 0 < n)
    (hre : CReach n s) (hall : ∀ t : Fin n, ∃ r, s.pc t = .done r) :
    (∀ (t t' : Fin n) (r r' : Nat),
        s.pc t = .done r → s.pc t' = .done r' → r = r')
    ∧ s.constructions = 1 := by
  obtain ⟨hcls, _, _, _, _, hd6⟩ := cInv_reach n s hre
  constructor
  · intro t t' r r' h h'
    rw [(hd6 t r h).1, (hd6 t' r' h').1]
  · obtain ⟨r, hr⟩ := hall ⟨0, hn⟩
    have h0 := (hd6 _ r hr).2
    rcases hcls with ⟨h1, _⟩ | ⟨_, h2⟩
    · rw [h1] at h0; exact absurd h0 (by simp)
    · exact h2

/-- Witness for C8: one caller runs the whole slow path
(fast-path miss, acquire, re-check miss, construct, release, return) and
finishes with instance 0 and one construction. -/
theorem C8_singleton_concurrent_unique_witness :
    (⟨some 0, 1, none, fun _ => TPC.done 0⟩ : CState 1).constructions = 1 := by
  have step1 : CStep (cInit 1) ⟨none, 0, none, fun _ => TPC.atAcquire⟩ := by
    have h := CStep.fastMiss (cInit 1) 0 rfl rfl
    rwa [fin1_update (cInit 1).pc TPC.atAcquire] at h
  have step2 : CStep (⟨none, 0, none, fun _ => TPC.atAcquire⟩ : CState 1)
      ⟨none, 0, some 0, fun _ => TPC.atRecheck⟩ := by
    have h := CStep.acquire (⟨none, 0, none, fun _ => TPC.atAcquire⟩ : CState 1) 0 rfl rfl
    rwa [fin1_update _ TPC.atRecheck] at h
  have step3 : CStep (⟨none, 0, some 0, fun _ => TPC.atRecheck⟩ : CState 1)
      ⟨none, 0, some 0, fun _ => TPC.atConstruct⟩ := by
    have h := CStep.recheckMiss (⟨none, 0, some 0, fun _ => TPC.atRecheck⟩ : CState 1) 0 rfl rfl
    rwa [fin1_update _ TPC.atConstruct] at h
  have step4 : CStep (⟨none, 0, some 0, fun _ => TPC.atConstruct⟩ : CState 1)
      ⟨some 0, 1, some 0, fun _ => TPC.atRelease⟩ := by
    have h := CStep.construct (⟨none, 0, some 0, fun _ => TPC.atConstruct⟩ : CState 1) 0 rfl
    rwa [fin1_update _ TPC.atRelease] at h
  have step5 : CStep (⟨some 0, 1, some 0, fun _ => TPC.atRelease⟩ : CState 1)
      ⟨some 0, 1, none, fun _ => TPC.atReturn⟩ := by
    have h := CStep.release (⟨some 0, 1, some 0, fun _ => TPC.atRelease⟩ : CState 1) 0 rfl
    rwa [fin1_update _ TPC.atReturn] at h
  have step6 : CStep (⟨some 0, 1, none, fun _ => TPC.atReturn⟩ : CState 1)
      ⟨some 0, 1, none, fun _ => TPC.done 0⟩ := by
    have h := CStep.ret (⟨some 0, 1, none, fun _ => TPC.atReturn⟩ : CState 1) 0 0 rfl rfl
    rwa [fin1_update _ (TPC.done 0)] at h
  have hre : CReach 1 ⟨some 0, 1, none, fun _ => TPC.done 0⟩ :=
    Relation.ReflTransGen.tail (Relation.ReflTransGen.tail
      (Relation.ReflTransGen.tail (Relation.ReflTransGen.tail
        (Relation.ReflTransGen.tail (Relation.ReflTransGen.single step1)
          step2) step3) step4) step5) step6
  exact (C8_singleton_concurrent_unique 1 ⟨some 0, 1, none, fun _ => TPC.done 0⟩
    Nat.one_pos hre (fun t => ⟨0, rfl⟩)).2
